import Mathlib

namespace Cycliq

/-!
Verification of the cycliq-incident-detector repository.

The development shallowly embeds the two algorithmic subsystems of the
repository:

* the triple-beep matcher and the pulse-detection stage of
  `dashcam-detect.py` / `detect.py`, and
* the timeline placement logic of `bpy-load-videos.py`.

Real numbers of the Python code (times in seconds, frame rates, frame
positions) are modelled as rationals `ℚ`; Python's `int(...)` conversion is
modelled by truncation toward zero (`pyTrunc`).  Filenames are modelled as
`List Char`; directories are dropped (every path in the placement code stays
inside one directory, so only the final name matters).  The Blender
sequencer, the file system and the movie metadata are external collaborators;
they are abstracted into an environment that answers the two questions the
code asks: the native duration in frames of a clip created for a filename
(`bpy`'s `frame_final_duration` right after `new_movie`) and whether a file
exists.  The sequencer stores the numeric values the script hands it; a
strip's visible timeline extent starts at `frame_start + frame_offset_start`
(the convention documented in `insert_movie`'s own docstring) and extends for
`frame_final_duration` frames.
-/

/-- Python's `int(...)` applied to a real value: truncation toward zero. -/
def pyTrunc (q : ℚ) : ℤ := if 0 ≤ q then ⌊q⌋ else ⌈q⌉

/-- `np.diff`: the list of adjacent differences `xs[i+1] - xs[i]`. -/
def npDiff : List ℚ → List ℚ
  | [] => []
  | [_] => []
  | x :: y :: rest => (y - x) :: npDiff (y :: rest)

/-- `find_triple_beeps` from `dashcam-detect.py` (lines 187-199) and
`detect.py` (lines 132-144); the two copies are identical.  The Python loop
enumerates `np.diff(peak_times)` with its index, skips index 0, and appends
`peak_times[i]` whenever both `peak_time_diffs[i]` and `peak_time_diffs[i-1]`
lie in `[td_min, td_max]`. -/
def findTripleBeeps (peakTimes : List ℚ) (tdMin tdMax : ℚ) : List ℚ :=
  let peakTimeDiffs := npDiff peakTimes
  (List.range peakTimeDiffs.length).filterMap fun i =>
    if i = 0 then none
    else if tdMin ≤ peakTimeDiffs.getD i 0 ∧ peakTimeDiffs.getD i 0 ≤ tdMax ∧
            tdMin ≤ peakTimeDiffs.getD (i - 1) 0 ∧ peakTimeDiffs.getD (i - 1) 0 ≤ tdMax
    then some (peakTimes.getD i 0) else none

/-- Spec-side definition (written from the spec's words, to be compared with
`findTripleBeeps`): the set of indices `i ≥ 1` at which an incident is
recognized, namely those whose gaps `g i = ts[i+1] - ts[i]` and `g (i-1)`
both lie within `[tdMin, tdMax]`; `i + 1 < ts.length` is required for the
gap `g i` to exist. -/
def tripleIndices (ts : List ℚ) (tdMin tdMax : ℚ) : List ℕ :=
  (List.range ts.length).filter fun i =>
    decide (1 ≤ i) && decide (i + 1 < ts.length) &&
    decide (tdMin ≤ ts.getD (i + 1) 0 - ts.getD i 0) &&
    decide (ts.getD (i + 1) 0 - ts.getD i 0 ≤ tdMax) &&
    decide (tdMin ≤ ts.getD i 0 - ts.getD (i - 1) 0) &&
    decide (ts.getD i 0 - ts.getD (i - 1) 0 ≤ tdMax)

/-!
## Filename handling of the placement script

`add_incident_to_timeline` (bpy-load-videos.py, lines 172-174) extracts the
sequential video id with `int(video_path.stem.split('_')[1])` and builds the
neighbouring filenames with the f-string `f"CYQ_{video_id - 1:04d}.MP4"`
(resp. `+ 1`).  Filenames are modelled as `List Char`; the parent directory
is dropped since all files live in one directory.
-/

/-- Index of the last occurrence of `c` (Python `str.rfind`, restricted to
single characters), `none` when absent. -/
def rfindIdx (c : Char) : List Char → Option ℕ
  | [] => none
  | x :: xs =>
    match rfindIdx c xs with
    | some j => some (j + 1)
    | none => if x = c then some 0 else none

/-- `pathlib.PurePath.stem`: the final path component without its last
suffix.  The suffix is `name[i:]` for `i = name.rfind('.')` when
`0 < i < len(name) - 1`, otherwise empty. -/
def stem (name : List Char) : List Char :=
  match rfindIdx '.' name with
  | none => name
  | some i => if 0 < i ∧ i < name.length - 1 then name.take i else name

/-- Python `str.split(sep)` for a one-character separator. -/
def splitOnChar (sep : Char) : List Char → List (List Char)
  | [] => [[]]
  | c :: cs =>
    match splitOnChar sep cs with
    | [] => [[c]]
    | r :: rs => if c = sep then [] :: r :: rs else (c :: r) :: rs

/-- The ASCII code points CPython's `int(str)` conversion treats as
whitespace (`str.isspace`): `0x09`-`0x0D`, `0x1C`-`0x1F` and `0x20`. -/
def isPySpace (c : Char) : Bool :=
  decide (c.toNat = 9) || decide (c.toNat = 10) || decide (c.toNat = 11) ||
  decide (c.toNat = 12) || decide (c.toNat = 13) || decide (c.toNat = 28) ||
  decide (c.toNat = 29) || decide (c.toNat = 30) || decide (c.toNat = 31) ||
  decide (c.toNat = 32)

/-- An ASCII decimal digit `'0'`-`'9'`. -/
def isAsciiDigit (c : Char) : Bool := decide (48 ≤ c.toNat ∧ c.toNat ≤ 57)

/-- Strip leading and trailing whitespace, as CPython's `int(str)` does
before parsing. -/
def pyStrip (cs : List Char) : List Char :=
  ((cs.dropWhile isPySpace).reverse.dropWhile isPySpace).reverse

/-- The digit run after the optional sign: a nonempty run of decimal digits
parses to its value (negated when a `'-'` sign was consumed), anything else
raises `ValueError`, modelled as `none`. -/
def pyIntDigits (ds : List Char) (neg : Bool) : Option ℤ :=
  if ds ≠ [] ∧ ds.all isAsciiDigit then
    let v : ℤ := (ds.foldl (fun a c => 10 * a + (c.toNat - 48)) 0 : ℕ)
    some (if neg then -v else v)
  else none

/-- After stripping, `int(str)` accepts one optional `'+'` or `'-'` sign and
then requires digits. -/
def pyIntChunk : List Char → Option ℤ
  | [] => none
  | c :: cs =>
    if c = '+' then pyIntDigits cs false
    else if c = '-' then pyIntDigits cs true
    else pyIntDigits (c :: cs) false

/-- Python `int(s)` on the chunks this call site can produce: surrounding
whitespace is stripped, one optional sign is accepted, then a nonempty run
of decimal digits gives the value (so `int('-5') = -5` and `int(' 5 ') = 5`
parse, while `''`, `'+'`, `'0x5'` or an interior space raise `ValueError`,
modelled as `none`).  Two CPython behaviours are out of the model's scope:
underscore grouping (`int('1_0') = 10`), which cannot occur in a chunk of a
`'_'`-split, and decimal digits outside ASCII (other Unicode `Nd`
characters, which CPython also maps to their values) — theorems that rely
on a parse *failing* therefore restrict the filename to ASCII. -/
def parseDigits (cs : List Char) : Option ℤ := pyIntChunk (pyStrip cs)

/-- `int(video_path.stem.split('_')[1])` (line 174): `[1]` out of range is
`IndexError`, a chunk `int` rejects is `ValueError`; both are modelled as
`none`. -/
def parseVideoId (name : List Char) : Option ℤ :=
  match (splitOnChar '_' (stem name)).get? 1 with
  | none => none
  | some chunk => parseDigits chunk

/-- Little-endian decimal digits of `n`, computed with explicit fuel so the
recursion is structural (`digitsAuxFuel n n = Nat.digits 10 n`). -/
def digitsAuxFuel : ℕ → ℕ → List ℕ
  | 0, _ => []
  | _ + 1, 0 => []
  | fuel + 1, n + 1 => (n + 1) % 10 :: digitsAuxFuel fuel ((n + 1) / 10)

/-- Decimal digit characters of `n` (Python `repr` of a non-negative int). -/
def natToDigitChars (n : ℕ) : List Char :=
  if n = 0 then ['0']
  else ((digitsAuxFuel n n).map fun d => Char.ofNat (48 + d)).reverse

/-- Zero-pad on the left to width `w`. -/
def padZeros (w : ℕ) (ds : List Char) : List Char :=
  List.replicate (w - ds.length) '0' ++ ds

/-- Python's format spec `{n:04d}`: minimum width 4, zero-padded; a negative
number keeps its sign and the zeros pad between sign and digits. -/
def formatZ4 (n : ℤ) : List Char :=
  if n < 0 then '-' :: padZeros 3 (natToDigitChars n.natAbs)
  else padZeros 4 (natToDigitChars n.natAbs)

/-- The filename `f"CYQ_{id:04d}.MP4"` built for a sequential video id. -/
def cyqName (id : ℤ) : List Char :=
  "CYQ_".toList ++ formatZ4 id ++ ".MP4".toList

/-- The predecessor filename the splice step probes (line 180),
`none` when the id parse fails. -/
def prevVideoName (name : List Char) : Option (List Char) :=
  (parseVideoId name).map fun videoId => cyqName (videoId - 1)

/-- The successor filename the splice step probes (line 193),
`none` when the id parse fails. -/
def nextVideoName (name : List Char) : Option (List Char) :=
  (parseVideoId name).map fun videoId => cyqName (videoId + 1)

/-!
## Timeline placement (`bpy-load-videos.py`)

The Blender sequencer and the file system are abstracted into `PlaceEnv`:
`durOf` answers `v_sequence.frame_final_duration` right after `new_movie`
(the clip's native duration in frames, an integer) and `fileExists` answers
`pathlib.Path.exists`.  A sequencer strip stores `frame_start`,
`frame_offset_start` and `frame_final_duration` exactly as assigned; its
visible timeline extent is `[frame_start + frame_offset_start,
frame_start + frame_offset_start + frame_final_duration)` (the convention
`insert_movie`'s docstring documents: the strip becomes visible at
`frame_start` plus the head offset).
-/

/-- External collaborators of the placement script. -/
structure PlaceEnv where
  durOf : List Char → ℤ
  fileExists : List Char → Bool

/-- One sequencer strip with the fields the script assigns. -/
structure Strip where
  filename : List Char
  frameStart : ℚ
  frameOffsetStart : ℚ
  frameFinalDuration : ℚ
  channel : ℤ
  deriving DecidableEq, Inhabited

/-- First visible timeline frame of a strip. -/
def frameFinalStart (s : Strip) : ℚ := s.frameStart + s.frameOffsetStart

/-- One past the last visible timeline frame of a strip. -/
def frameFinalEnd (s : Strip) : ℚ := frameFinalStart s + s.frameFinalDuration

/-- `insert_movie` (lines 212-259): creates a video strip on `channel + 1`
and an audio strip on `channel`, reads the native duration
`frame_duration_original` from the fresh video strip, shrinks the requested
final duration to `min(frame_final_duration, frame_duration_original -
frame_offset_start)`, assigns the three frame fields to both strips, and
returns the pair together with `frame_duration_original`. -/
def insertMovie (env : PlaceEnv) (videoFilename : List Char)
    (frameStart frameOffsetStart frameFinalDuration : ℚ) (channel : ℤ) :
    Strip × Strip × ℚ :=
  let frameDurationOriginal : ℚ := (env.durOf videoFilename : ℤ)
  let corrected := min frameFinalDuration (frameDurationOriginal - frameOffsetStart)
  (⟨videoFilename, frameStart, frameOffsetStart, corrected, channel + 1⟩,
   ⟨videoFilename, frameStart, frameOffsetStart, corrected, channel⟩,
   frameDurationOriginal)

/-- The Python exceptions the placement loop can hit.  The sequential-id
parse failure (`ValueError`/`IndexError` from line 174) is the only one the
model produces; the spec's name for it is `MalformedFilenameError`. -/
inductive PlacementError where
  | malformedFilename
  deriving DecidableEq, Inhabited

/-- Everything `add_incident_to_timeline` inserts for one incident: the
primary video/audio pair, an optional predecessor splice pair, an optional
successor splice pair, and the exception that escaped, if any.  When the id
parse raises, the primary pair has already been inserted and both splice
steps are skipped. -/
structure IncidentPlacement where
  primaryV : Strip
  primaryA : Strip
  predClip : Option (Strip × Strip)
  succClip : Option (Strip × Strip)
  error : Option PlacementError
  deriving DecidableEq, Inhabited

/-- `add_incident_to_timeline` (lines 144-209).  The primary strip pair is
inserted first (lines 153-170); then the sequential id is parsed (line 174);
if the timestamp leaves less than `context_before` of lead-in, the
predecessor file is probed and, when present, spliced from its assumed tail
(lines 179-191; note the code subtracts from the *current* file's native
duration); if the trailing context overruns the file, the successor file is
probed and, when present, spliced from its head (lines 192-209). -/
def addIncidentToTimeline (env : PlaceEnv) (videoFilename : List Char)
    (beepTimestamp contextBefore contextAfter : ℚ) (startFrame : ℤ)
    (fps : ℚ) (channel : ℤ) : IncidentPlacement :=
  let primary := insertMovie env videoFilename
    ((pyTrunc ((startFrame : ℚ)
      + max 0 (contextBefore - beepTimestamp) * fps
      - max 0 (beepTimestamp - contextBefore) * fps) : ℤ))
    ((pyTrunc (max 0 (beepTimestamp - contextBefore) * fps) : ℤ))
    ((pyTrunc ((min contextBefore beepTimestamp + contextAfter) * fps) : ℤ))
    channel
  let vSequence := primary.1
  let aSequence := primary.2.1
  let frameDurationOriginal := primary.2.2
  match parseVideoId videoFilename with
  | none => ⟨vSequence, aSequence, none, none, some .malformedFilename⟩
  | some videoId =>
    let predClip :=
      if beepTimestamp < contextBefore then
        let prevVideoPath := cyqName (videoId - 1)
        if env.fileExists prevVideoPath then
          let frameFinalDuration := (contextBefore - beepTimestamp) * fps
          let r := insertMovie env prevVideoPath
            ((startFrame : ℚ) - frameFinalDuration)
            (frameDurationOriginal - frameFinalDuration)
            frameFinalDuration channel
          some (r.1, r.2.1)
        else none
      else none
    let succClip :=
      if beepTimestamp * fps > frameDurationOriginal - contextAfter * fps then
        let nextVideoPath := cyqName (videoId + 1)
        if env.fileExists nextVideoPath then
          let frameRemainingContext := pyTrunc (contextAfter * fps
            - (frameDurationOriginal - beepTimestamp * fps))
          let r := insertMovie env nextVideoPath
            ((pyTrunc ((startFrame : ℚ) + contextBefore * fps
              + contextAfter * fps - (frameRemainingContext : ℚ)) : ℤ))
            0 ((frameRemainingContext : ℤ)) channel
          some (r.1, r.2.1)
        else none
      else none
    ⟨vSequence, aSequence, predClip, succClip, none⟩

/-- The incident loop of `blender_main` (lines 98-115): incidents arrive as
(filename, timestamp) pairs in visitation order (files sorted by name, each
file's timestamps in stored order); the running counter `i_incident`
determines the slot start frame `int(i * (context_before + context_after) *
fps)` and the channel `1 + (i % 2) * 2`.  An exception escaping
`add_incident_to_timeline` is uncaught, so it aborts the loop: the strips
inserted so far stay, the remaining incidents are never placed. -/
def runPlacementAux (env : PlaceEnv) (contextBefore contextAfter fps : ℚ) :
    ℕ → List (List Char × ℚ) → List IncidentPlacement
  | _, [] => []
  | iIncident, (videoFilename, beepTimestamp) :: rest =>
    let p := addIncidentToTimeline env videoFilename beepTimestamp
      contextBefore contextAfter
      (pyTrunc ((iIncident : ℚ) * (contextBefore + contextAfter) * fps)) fps
      (1 + ((iIncident : ℤ) % 2) * 2)
    match p.error with
    | some _ => [p]
    | none => p :: runPlacementAux env contextBefore contextAfter fps (iIncident + 1) rest

/-- The full placement pass over the visitation-ordered incident list. -/
def runPlacement (env : PlaceEnv) (incidents : List (List Char × ℚ))
    (contextBefore contextAfter fps : ℚ) : List IncidentPlacement :=
  runPlacementAux env contextBefore contextAfter fps 0 incidents

/-!
## Pulse detection (`dashcam-detect.py`, lines 127-146)

`process_video` band-pass-filters the energy trace with
`scipy.signal.sosfilt` (coefficients from `scipy.signal.iirfilter`, a
cascade of normalized second-order sections with `a0 = 1`) and then runs
`scipy.signal.find_peaks(yfilt, height=200)`.  The filter coefficients are
floating-point values computed by the external `iirfilter` design routine;
the model takes the section list as a parameter.  `sosfilt` is the direct
form II transposed recurrence; it imposes no minimum input length, and no
step of this stage can raise: the `Except` result records that the code has
no failure path (the spec's `InsufficientDataError` never occurs). -/

/-- One normalized second-order filter section (one row of the `sos` array;
`sosfilt` never reads `a0`, it assumes `a0 = 1`). -/
structure Sos where
  b0 : ℚ
  b1 : ℚ
  b2 : ℚ
  a0 : ℚ
  a1 : ℚ
  a2 : ℚ
  deriving DecidableEq

/-- One second-order section of `scipy.signal.sosfilt` (direct form II
transposed, zero initial conditions), carrying the two state variables. -/
def sosfiltSection (s : Sos) : ℚ → ℚ → List ℚ → List ℚ
  | _, _, [] => []
  | z1, z2, x :: xs =>
    let y := s.b0 * x + z1
    y :: sosfiltSection s (s.b1 * x + z2 - s.a1 * y) (s.b2 * x - s.a2 * y) xs

/-- `scipy.signal.sosfilt`: apply each section in cascade. -/
def sosfilt (sos : List Sos) (xs : List ℚ) : List ℚ :=
  sos.foldl (fun acc s => sosfiltSection s 0 0 acc) xs

/-- Length of the leading run of entries equal to `v` and the remainder of
the list (the plateau scan of `scipy`'s `_local_maxima_1d`). -/
def plateau (v : ℚ) : List ℚ → ℕ × List ℚ
  | [] => (0, [])
  | y :: ys =>
    if y = v then ((plateau v ys).1 + 1, (plateau v ys).2) else (0, y :: ys)

/-- The scan loop of `scipy`'s `_local_maxima_1d` (used by `find_peaks`):
walk the interior samples; a sample (or plateau) strictly above its left
neighbour whose right end drops strictly below is a peak reported at the
plateau midpoint (rounded down); the last sample never starts a peak.
`i` is the index of the head of the remaining list, `prev` the value at
`i - 1`.  The extra fuel argument makes the recursion structural; every
step consumes at least one list element, so `fuel = length + 1` is enough
(`localMaxima` passes exactly that). -/
def lmAux : ℕ → ℕ → ℚ → List ℚ → List ℕ
  | 0, _, _, _ => []
  | _ + 1, _, _, [] => []
  | fuel + 1, i, prev, x :: rest =>
    if prev < x then
      match plateau x rest with
      | (_, []) => []
      | (k, y :: rest2) =>
        if y < x then (i + k / 2) :: lmAux fuel (i + k + 2) y rest2
        else lmAux fuel (i + k + 1) x (y :: rest2)
    else lmAux fuel (i + 1) x rest

/-- `scipy.signal.find_peaks`' local-maxima pass on a 1-D signal. -/
def localMaxima (xs : List ℚ) : List ℕ :=
  match xs with
  | [] => []
  | x :: rest => lmAux (rest.length + 1) 1 x rest

/-- The spec's detection-stage error taxonomy (`InsufficientDataError`).
Modelled from the spec: no error class of this name exists anywhere in the
source and the detection stage has no raise statement; the constructor
exists so that the absence of the failure path can be stated. -/
inductive DetectError where
  | insufficientData
  deriving DecidableEq

/-- The pulse-detection stage of `process_video` (lines 127-146): band-pass
filter the energy trace, find peaks of the filtered signal above
`min_height` (the code passes `height=200`), and pair each peak's time with
its filtered value.  The `Except` result models Python's exception channel:
no branch of this code raises, so the result is always `Except.ok`. -/
def processTrace (sos : List Sos) (minHeight : ℚ) (exTimes exVolume : List ℚ) :
    Except DetectError (List (ℚ × ℚ)) :=
  let yfilt := sosfilt sos exVolume
  let peaks := (localMaxima yfilt).filter fun i => minHeight ≤ yfilt.getD i 0
  Except.ok (peaks.map fun i => (exTimes.getD i 0, yfilt.getD i 0))

theorem pyTrunc_intCast (n : ℤ) : pyTrunc (n : ℚ) = n := by
  unfold pyTrunc
  split <;> simp

theorem npDiff_length (xs : List ℚ) : (npDiff xs).length = xs.length - 1 := by
  induction xs with
  | nil => rfl
  | cons x rest ih =>
    cases rest with
    | nil => rfl
    | cons y rest' => simpa [npDiff] using ih

theorem npDiff_getD (xs : List ℚ) (i : ℕ) (h : i + 1 < xs.length) :
    (npDiff xs).getD i 0 = xs.getD (i + 1) 0 - xs.getD i 0 := by
  induction xs generalizing i with
  | nil => simp at h
  | cons x rest ih =>
    cases rest with
    | nil => simp at h
    | cons y rest' =>
      cases i with
      | zero => simp [npDiff]
      | succ j =>
        have hj : j + 1 < (y :: rest').length := by
          simpa using Nat.lt_of_succ_lt_succ h
        simpa [npDiff] using ih j hj

theorem filterMap_eq_map_filter_of {α : Type} (l : List ℕ) (f : ℕ → Option α)
    (p : ℕ → Bool) (g : ℕ → α)
    (hf : ∀ i ∈ l, f i = if p i then some (g i) else none) :
    l.filterMap f = (l.filter p).map g := by
  induction l with
  | nil => rfl
  | cons x xs ih =>
    have hx := hf x (List.mem_cons_self x xs)
    have ihx := ih fun i hi => hf i (List.mem_cons_of_mem x hi)
    by_cases hpx : p x = true
    · simp [List.filterMap_cons, List.filter_cons, hx, hpx, ihx]
    · have hpx' : p x = false := by simpa using hpx
      simp [List.filterMap_cons, List.filter_cons, hx, hpx', ihx]

theorem findTripleBeeps_eq_spec (ts : List ℚ) (tdMin tdMax : ℚ) :
    findTripleBeeps ts tdMin tdMax =
      (tripleIndices ts tdMin tdMax).map fun i => ts.getD i 0 := by
  classical
  unfold findTripleBeeps tripleIndices
  set p : ℕ → Bool := fun i =>
    decide (1 ≤ i) && decide (i + 1 < ts.length) &&
    decide (tdMin ≤ ts.getD (i + 1) 0 - ts.getD i 0) &&
    decide (ts.getD (i + 1) 0 - ts.getD i 0 ≤ tdMax) &&
    decide (tdMin ≤ ts.getD i 0 - ts.getD (i - 1) 0) &&
    decide (ts.getD i 0 - ts.getD (i - 1) 0 ≤ tdMax) with hp
  have hlen : (npDiff ts).length = ts.length - 1 := npDiff_length ts
  have hstep :
      (List.range (npDiff ts).length).filterMap (fun i =>
        if i = 0 then none
        else if tdMin ≤ (npDiff ts).getD i 0 ∧ (npDiff ts).getD i 0 ≤ tdMax ∧
                tdMin ≤ (npDiff ts).getD (i - 1) 0 ∧ (npDiff ts).getD (i - 1) 0 ≤ tdMax
        then some (ts.getD i 0) else none) =
      ((List.range (npDiff ts).length).filter p).map fun i => ts.getD i 0 := by
    apply filterMap_eq_map_filter_of
    intro i hi
    have hi' : i < ts.length - 1 := by
      have := List.mem_range.mp hi
      omega
    have hi1 : i + 1 < ts.length := by omega
    have hd1 : (npDiff ts).getD i 0 = ts.getD (i + 1) 0 - ts.getD i 0 :=
      npDiff_getD ts i hi1
    cases i with
    | zero => simp [hp]
    | succ j =>
      have hj1 : j + 1 < ts.length := by omega
      have hd0 : (npDiff ts).getD j 0 = ts.getD (j + 1) 0 - ts.getD j 0 :=
        npDiff_getD ts j hj1
      simp only [hp]
      rw [hd1]
      simp only [Nat.succ_sub_one, hd0]
      simp [hi1, and_assoc]
  rw [hstep]
  congr 1
  rw [hlen]
  rcases Nat.eq_zero_or_pos ts.length with h0 | hpos
  · simp [h0]
  · obtain ⟨n, hn⟩ : ∃ n, ts.length = n + 1 := ⟨ts.length - 1, by omega⟩
    rw [hn]
    simp only [Nat.add_sub_cancel, List.range_succ, List.filter_append]
    have hlast : p n = false := by
      simp only [hp]
      have : ¬ (n + 1 < ts.length) := by omega
      simp [this]
    simp [hlast]

theorem map_getD_filter_range_sublist (ts : List ℚ) (p : ℕ → Bool) :
    List.Sublist (((List.range ts.length).filter p).map fun i => ts.getD i 0) ts := by
  induction ts generalizing p with
  | nil => simp
  | cons t rest ih =>
    have hrange : List.range (t :: rest).length =
        0 :: (List.range rest.length).map (· + 1) := by
      simpa using List.range_succ_eq_map rest.length
    rw [hrange]
    rw [List.filter_cons]
    by_cases hp0 : p 0 = true
    · rw [if_pos hp0, List.map_cons]
      refine List.Sublist.cons₂ _ ?_
      rw [List.filter_map, List.map_map]
      have : ((List.range rest.length).filter (p ∘ (· + 1))).map
          ((fun i => (t :: rest).getD i 0) ∘ (· + 1)) =
          ((List.range rest.length).filter (p ∘ (· + 1))).map fun i => rest.getD i 0 := by
        apply List.map_congr_left
        intro i _
        simp
      rw [this]
      exact ih (p ∘ (· + 1))
    · rw [if_neg hp0]
      refine List.Sublist.cons _ ?_
      rw [List.filter_map, List.map_map]
      have : ((List.range rest.length).filter (p ∘ (· + 1))).map
          ((fun i => (t :: rest).getD i 0) ∘ (· + 1)) =
          ((List.range rest.length).filter (p ∘ (· + 1))).map fun i => rest.getD i 0 := by
        apply List.map_congr_left
        intro i _
        simp
      rw [this]
      exact ih (p ∘ (· + 1))

/-- C1 counterexample: on the pulse times `[0, 0.08, 0.16, 1.0]` with
`td_min = 0.06`, `td_max = 0.12` the matcher does not return `[0.16]`: the
claimed timestamp 0.16 (the third pulse of the triplet) is not what the code
emits. -/
theorem c1_counterexample :
    findTripleBeeps [0, 8/100, 16/100, 1] (6/100) (12/100) ≠ [16/100] := by
  norm_num [findTripleBeeps, npDiff, List.range_succ, List.filterMap_cons, List.getD]

/-- C1 (amended): on the pulse times `[0, 0.08, 0.16, 1.0]` with
`td_min = 0.06`, `td_max = 0.12` the matcher emits exactly one incident, and
its timestamp is 0.08 — the time of the second (middle) pulse of the matched
triplet, since the loop appends `peak_times[i]` where `i` indexes the second
of the two qualifying gaps. -/
theorem c1_amended :
    findTripleBeeps [0, 8/100, 16/100, 1] (6/100) (12/100) = [8/100] := by
  norm_num [findTripleBeeps, npDiff, List.range_succ, List.filterMap_cons, List.getD]

/-- C2: for every strictly increasing pulse-time sequence and `td_min ≤
td_max`, the matcher's output is exactly the map of `pulses[i].time` over the
indices `i ≥ 1` such that both consecutive gaps `g[i] = ts[i+1] - ts[i]` and
`g[i-1]` lie within `[td_min, td_max]` inclusive — each qualifying index
contributes its own entry independently, with no deduplication. -/
theorem c2_matcher_characterization (ts : List ℚ) (tdMin tdMax : ℚ)
    (_hinc : ts.Chain' (· < ·)) (_hle : tdMin ≤ tdMax) :
    findTripleBeeps ts tdMin tdMax =
      (tripleIndices ts tdMin tdMax).map fun i => ts.getD i 0 :=
  findTripleBeeps_eq_spec ts tdMin tdMax

/-- Witness for C2 at the concrete input `[0, 0.08, 0.16, 1.0]`,
`td_min = 0.06`, `td_max = 0.12`. -/
theorem c2_matcher_characterization_witness :
    ([0, 8/100, 16/100, (1:ℚ)] : List ℚ).Chain' (· < ·) ∧ (6/100 : ℚ) ≤ 12/100 ∧
      findTripleBeeps [0, 8/100, 16/100, 1] (6/100) (12/100) =
        (tripleIndices [0, 8/100, 16/100, 1] (6/100) (12/100)).map
          (fun i => ([0, 8/100, 16/100, (1:ℚ)] : List ℚ).getD i 0) :=
  ⟨by norm_num [List.chain'_cons], by norm_num,
    c2_matcher_characterization [0, 8/100, 16/100, 1] (6/100) (12/100)
      (by norm_num [List.chain'_cons]) (by norm_num)⟩

theorem digitsAuxFuel_eq (fuel n : ℕ) (h : n ≤ fuel) :
    digitsAuxFuel fuel n = Nat.digits 10 n := by
  induction fuel generalizing n with
  | zero =>
    have : n = 0 := by omega
    subst this
    simp [digitsAuxFuel]
  | succ f ih =>
    cases n with
    | zero => simp [digitsAuxFuel]
    | succ m =>
      have hdiv : (m + 1) / 10 ≤ f := by
        have h2 : (m + 1) / 10 < m + 1 := Nat.div_lt_self (by omega) (by omega)
        omega
      rw [digitsAuxFuel, ih _ hdiv]
      rw [Nat.digits_def' (by omega : (1:ℕ) < 10) (by omega : 0 < m + 1)]

theorem natToDigitChars_eq (n : ℕ) (h : n ≠ 0) :
    natToDigitChars n = ((Nat.digits 10 n).map fun d => Char.ofNat (48 + d)).reverse := by
  rw [natToDigitChars, if_neg h, digitsAuxFuel_eq n n le_rfl]

/-- C10: the matcher's output is a sublist of the input pulse-time sequence —
every emitted incident time is an element of the input, and emitted times
keep the input's relative order (so they are ascending whenever the input
is). -/
theorem c10_output_sublist (ts : List ℚ) (tdMin tdMax : ℚ) :
    List.Sublist (findTripleBeeps ts tdMin tdMax) ts := by
  rw [findTripleBeeps_eq_spec]
  exact map_getD_filter_range_sublist ts _

/-- C6: for every clip the placer inserts, the correction pass of
`insert_movie` leaves `frame_offset_start + frame_final_duration` no larger
than the source file's own native duration, shrinks only the duration (never
beyond the requested one), and leaves start and offset untouched — for the
video strip and the audio strip alike. -/
theorem c6_duration_clamp (env : PlaceEnv) (videoFilename : List Char)
    (frameStart frameOffsetStart frameFinalDuration : ℚ) (channel : ℤ) :
    let r := insertMovie env videoFilename frameStart frameOffsetStart
      frameFinalDuration channel
    (r.1.frameOffsetStart + r.1.frameFinalDuration ≤ (env.durOf videoFilename : ℚ) ∧
      r.1.frameFinalDuration ≤ frameFinalDuration ∧
      r.1.frameOffsetStart = frameOffsetStart ∧ r.1.frameStart = frameStart) ∧
    (r.2.1.frameOffsetStart + r.2.1.frameFinalDuration ≤ (env.durOf videoFilename : ℚ) ∧
      r.2.1.frameFinalDuration ≤ frameFinalDuration ∧
      r.2.1.frameOffsetStart = frameOffsetStart ∧ r.2.1.frameStart = frameStart) := by
  have hmin : min frameFinalDuration ((env.durOf videoFilename : ℚ) - frameOffsetStart)
      ≤ (env.durOf videoFilename : ℚ) - frameOffsetStart := min_le_right _ _
  refine ⟨⟨?_, ?_, rfl, rfl⟩, ⟨?_, ?_, rfl, rfl⟩⟩ <;>
    simp only [insertMovie] <;> first
      | linarith [hmin]
      | exact min_le_left _ _

/-- C4 (code bug, evaluation at the failing input): incident at
`timestamp = 5` s in `CYQ_0002.MP4` with `context_before = 14`,
`context_after = 5`, `fps = 30`, slot start frame 0; both files are 18000
frames long and `CYQ_0001.MP4` exists.  The predecessor splice is emitted
with duration `(14 - 5) * 30 = 270` frames, but its visible extent ends at
frame `(0 - 270) + (18000 - 270) + 270 = 17730`, far from frame 270 where
the primary placement's visible extent begins — the reserved lead-in gap
`[0, 270)` stays empty, so the claimed zero-gap adjacency fails. -/
theorem c4_predecessor_misplaced :
    frameFinalStart (addIncidentToTimeline
      ⟨fun _ => 18000, fun f => f == "CYQ_0001.MP4".toList⟩
      ("CYQ_0002.MP4".toList) 5 14 5 0 30 1).primaryV = 270 ∧
      ((addIncidentToTimeline
        ⟨fun _ => 18000, fun f => f == "CYQ_0001.MP4".toList⟩
        ("CYQ_0002.MP4".toList) 5 14 5 0 30 1).predClip.map
          fun pr => pr.1.frameFinalDuration) = some 270 ∧
      ((addIncidentToTimeline
        ⟨fun _ => 18000, fun f => f == "CYQ_0001.MP4".toList⟩
        ("CYQ_0002.MP4".toList) 5 14 5 0 30 1).predClip.map
          fun pr => frameFinalEnd pr.1) = some 17730 ∧
      (17730 : ℚ) ≠ 270 := by
  have hparse : parseVideoId ("CYQ_0002.MP4".toList) = some 2 := by decide
  have hfz : formatZ4 1 = ['0', '0', '0', '1'] := by decide
  simp only [addIncidentToTimeline, insertMovie, hparse]
  norm_num [pyTrunc, frameFinalStart, frameFinalEnd, cyqName, hfz]

theorem addIncident_error_parse_none (env : PlaceEnv) (videoFilename : List Char)
    (beepTimestamp contextBefore contextAfter : ℚ) (startFrame : ℤ) (fps : ℚ)
    (channel : ℤ) (h : parseVideoId videoFilename = none) :
    (addIncidentToTimeline env videoFilename beepTimestamp contextBefore
      contextAfter startFrame fps channel).error =
      some PlacementError.malformedFilename := by
  simp only [addIncidentToTimeline, h]

theorem addIncident_predClip_parse_none (env : PlaceEnv) (videoFilename : List Char)
    (beepTimestamp contextBefore contextAfter : ℚ) (startFrame : ℤ) (fps : ℚ)
    (channel : ℤ) (h : parseVideoId videoFilename = none) :
    (addIncidentToTimeline env videoFilename beepTimestamp contextBefore
      contextAfter startFrame fps channel).predClip = none := by
  simp only [addIncidentToTimeline, h]

theorem addIncident_succClip_parse_none (env : PlaceEnv) (videoFilename : List Char)
    (beepTimestamp contextBefore contextAfter : ℚ) (startFrame : ℤ) (fps : ℚ)
    (channel : ℤ) (h : parseVideoId videoFilename = none) :
    (addIncidentToTimeline env videoFilename beepTimestamp contextBefore
      contextAfter startFrame fps channel).succClip = none := by
  simp only [addIncidentToTimeline, h]

/-- C8 counterexample: a run over two incidents whose first filename,
`AAA.MP4` (first also in the sorted visitation order of `blender_main`),
has no parseable sequential id: its stem has no `'_'`, so
`stem.split('_')[1]` raises `IndexError`.  The claim says placement of all
remaining incidents continues unaffected, but the run stops after the first
incident: only one placement is produced and the second incident is never
placed. -/
theorem c8_counterexample :
    (runPlacement ⟨fun _ => 18000, fun _ => false⟩
      [("AAA.MP4".toList, 20), ("CYQ_0002.MP4".toList, 20)] 14 5 30).length = 1 := by
  have hparse : parseVideoId ("AAA.MP4".toList) = none := by decide
  rw [runPlacement, runPlacementAux]
  rw [addIncident_error_parse_none _ _ _ _ _ _ _ _ hparse]
  rfl

/-- C8 (amended): when an incident's source filename has no parseable
sequential numeric identifier — `parseVideoId` is `none`, which for the
all-ASCII filenames this theorem is restricted to coincides exactly with
Python raising `IndexError`/`ValueError` at line 174 (the model of `int`
covers sign, whitespace and digit runs; only non-ASCII Unicode digits are
outside it) — the splice steps are skipped and the primary placement still
proceeds (the placement for this incident is emitted, with no predecessor
or successor clips), but the parse error escapes uncaught: the error is
recorded and placement of all remaining incidents is aborted rather than
continuing. -/
theorem c8_malformed_aborts_run (env : PlaceEnv) (videoFilename : List Char)
    (beepTimestamp contextBefore contextAfter fps : ℚ) (iIncident : ℕ)
    (rest : List (List Char × ℚ))
    (_hascii : videoFilename.all (fun c => decide (c.toNat < 128)) = true)
    (h : parseVideoId videoFilename = none) :
    let p := addIncidentToTimeline env videoFilename beepTimestamp
      contextBefore contextAfter
      (pyTrunc ((iIncident : ℚ) * (contextBefore + contextAfter) * fps)) fps
      (1 + ((iIncident : ℤ) % 2) * 2)
    runPlacementAux env contextBefore contextAfter fps iIncident
        ((videoFilename, beepTimestamp) :: rest) = [p] ∧
      p.predClip = none ∧ p.succClip = none ∧
      p.error = some PlacementError.malformedFilename := by
  refine ⟨?_, addIncident_predClip_parse_none _ _ _ _ _ _ _ _ h,
    addIncident_succClip_parse_none _ _ _ _ _ _ _ _ h,
    addIncident_error_parse_none _ _ _ _ _ _ _ _ h⟩
  rw [runPlacementAux]
  rw [addIncident_error_parse_none _ _ _ _ _ _ _ _ h]

/-- Witness for C8 (amended) at a concrete ASCII malformed first incident. -/
theorem c8_malformed_aborts_run_witness :
    ("AAA.MP4".toList).all (fun c => decide (c.toNat < 128)) = true ∧
      parseVideoId ("AAA.MP4".toList) = none ∧
      (let p := addIncidentToTimeline ⟨fun _ => 18000, fun _ => false⟩
        ("AAA.MP4".toList) 20 14 5
        (pyTrunc ((0 : ℚ) * (14 + 5) * 30)) 30 (1 + (((0 : ℕ) : ℤ) % 2) * 2)
      runPlacementAux ⟨fun _ => 18000, fun _ => false⟩ 14 5 30 0
          (("AAA.MP4".toList, 20) :: [("CYQ_0002.MP4".toList, 20)]) = [p] ∧
        p.predClip = none ∧ p.succClip = none ∧
        p.error = some PlacementError.malformedFilename) :=
  ⟨by decide, by decide,
    c8_malformed_aborts_run ⟨fun _ => 18000, fun _ => false⟩ ("AAA.MP4".toList)
      20 14 5 30 0 [("CYQ_0002.MP4".toList, 20)] (by decide) (by decide)⟩

theorem digitChar_toNat (d : ℕ) (h : d < 10) : (Char.ofNat (48 + d)).toNat = 48 + d := by
  interval_cases d <;> decide

theorem digitChar_isAsciiDigit (d : ℕ) (h : d < 10) :
    isAsciiDigit (Char.ofNat (48 + d)) = true := by
  interval_cases d <;> decide

theorem isAsciiDigit_ne_underscore (c : Char) (h : isAsciiDigit c = true) : c ≠ '_' := by
  intro heq
  subst heq
  exact absurd h (by decide)

theorem isAsciiDigit_ne_dot (c : Char) (h : isAsciiDigit c = true) : c ≠ '.' := by
  intro heq
  subst heq
  exact absurd h (by decide)

theorem isAsciiDigit_ne_plus (c : Char) (h : isAsciiDigit c = true) : ¬ (c = '+') := by
  intro heq
  subst heq
  exact absurd h (by decide)

theorem isAsciiDigit_ne_minus (c : Char) (h : isAsciiDigit c = true) : ¬ (c = '-') := by
  intro heq
  subst heq
  exact absurd h (by decide)

theorem isAsciiDigit_not_isPySpace (c : Char) (h : isAsciiDigit c = true) :
    isPySpace c = false := by
  simp only [isAsciiDigit, decide_eq_true_eq] at h
  simp only [isPySpace, Bool.or_eq_false_iff, decide_eq_false_iff_not]
  omega

theorem natToDigitChars_ne_nil (n : ℕ) : natToDigitChars n ≠ [] := by
  unfold natToDigitChars
  by_cases h0 : n = 0
  · simp [h0]
  · rw [if_neg h0, digitsAuxFuel_eq n n le_rfl]
    simp [Nat.digits_ne_nil_iff_ne_zero, h0]

theorem mem_natToDigitChars_isAsciiDigit (n : ℕ) :
    ∀ c ∈ natToDigitChars n, isAsciiDigit c = true := by
  intro c hc
  unfold natToDigitChars at hc
  by_cases h0 : n = 0
  · rw [if_pos h0] at hc
    simp at hc
    subst hc
    decide
  · rw [if_neg h0, digitsAuxFuel_eq n n le_rfl] at hc
    rw [List.mem_reverse, List.mem_map] at hc
    obtain ⟨d, hd, rfl⟩ := hc
    exact digitChar_isAsciiDigit d (Nat.digits_lt_base (by omega) hd)

theorem mem_padZeros_isAsciiDigit (w : ℕ) (ds : List Char)
    (hds : ∀ c ∈ ds, isAsciiDigit c = true) :
    ∀ c ∈ padZeros w ds, isAsciiDigit c = true := by
  intro c hc
  unfold padZeros at hc
  rw [List.mem_append] at hc
  rcases hc with hc | hc
  · have := List.eq_of_mem_replicate hc
    subst this
    decide
  · exact hds c hc

theorem pyStrip_digits (l : List Char) (hdig : ∀ c ∈ l, isAsciiDigit c = true) :
    pyStrip l = l := by
  cases l with
  | nil => rfl
  | cons c cs =>
    have hc := isAsciiDigit_not_isPySpace c (hdig c (List.mem_cons_self c cs))
    have h1 : (c :: cs).dropWhile isPySpace = c :: cs := by
      rw [List.dropWhile_cons, if_neg (by simp [hc])]
    rw [pyStrip, h1]
    rcases hr : (c :: cs).reverse with _ | ⟨c2, cs2⟩
    · exact absurd hr (by simp)
    · have hc2mem : c2 ∈ c :: cs := by
        rw [← List.mem_reverse, hr]
        exact List.mem_cons_self c2 cs2
      have hc2 := isAsciiDigit_not_isPySpace c2 (hdig c2 hc2mem)
      rw [List.dropWhile_cons, if_neg (by simp [hc2]), ← hr,
        List.reverse_reverse]

theorem foldr_digit_chars (L : List ℕ) (h : ∀ d ∈ L, d < 10) :
    List.foldr (fun c a => 10 * a + (c.toNat - 48)) 0
      (L.map fun d => Char.ofNat (48 + d)) = Nat.ofDigits 10 L := by
  induction L with
  | nil => simp [Nat.ofDigits]
  | cons d L ih =>
    have hd : d < 10 := h d (List.mem_cons_self d L)
    have hL : ∀ x ∈ L, x < 10 := fun x hx => h x (List.mem_cons_of_mem d hx)
    rw [List.map_cons, List.foldr_cons, ih hL, Nat.ofDigits_cons,
      digitChar_toNat d hd]
    omega

theorem foldl_digit_value (n : ℕ) :
    (natToDigitChars n).foldl (fun a c => 10 * a + (c.toNat - 48)) 0 = n := by
  by_cases h0 : n = 0
  · subst h0
    decide
  · rw [natToDigitChars_eq n h0, List.foldl_reverse]
    have : (fun (x : Char) (y : ℕ) => 10 * y + (x.toNat - 48)) =
        fun c a => 10 * a + (c.toNat - 48) := rfl
    rw [this, foldr_digit_chars _ fun d hd => Nat.digits_lt_base (by omega) hd,
      Nat.ofDigits_digits]

theorem foldl_replicate_zero (k : ℕ) (ds : List Char) :
    (List.replicate k '0' ++ ds).foldl (fun a c => 10 * a + (c.toNat - 48)) 0 =
      ds.foldl (fun a c => 10 * a + (c.toNat - 48)) 0 := by
  induction k with
  | zero => rfl
  | succ m ih => simpa [List.replicate_succ] using ih

theorem parseDigits_padZeros_natToDigitChars (w n : ℕ) :
    parseDigits (padZeros w (natToDigitChars n)) = some (n : ℤ) := by
  have hdig : ∀ c ∈ padZeros w (natToDigitChars n), isAsciiDigit c = true :=
    mem_padZeros_isAsciiDigit w _ (mem_natToDigitChars_isAsciiDigit n)
  have hne : padZeros w (natToDigitChars n) ≠ [] := by
    intro hnil
    have h1 := natToDigitChars_ne_nil n
    unfold padZeros at hnil
    rcases List.append_eq_nil.mp hnil with ⟨_, h2⟩
    exact h1 h2
  have hval : (padZeros w (natToDigitChars n)).foldl
      (fun a c => 10 * a + (c.toNat - 48)) 0 = n := by
    rw [padZeros, foldl_replicate_zero, foldl_digit_value]
  obtain ⟨c, cs, hcc⟩ : ∃ c cs, padZeros w (natToDigitChars n) = c :: cs := by
    rcases h : padZeros w (natToDigitChars n) with _ | ⟨c, cs⟩
    · exact absurd h hne
    · exact ⟨c, cs, rfl⟩
  have hc : isAsciiDigit c = true := hdig c (by rw [hcc]; exact List.mem_cons_self c cs)
  have hcond : (c :: cs : List Char) ≠ [] ∧ (c :: cs).all isAsciiDigit = true := by
    refine ⟨by simp, ?_⟩
    rw [List.all_eq_true]
    intro x hx
    exact hdig x (by rw [hcc]; exact hx)
  have hfold : (c :: cs).foldl (fun a c => 10 * a + (c.toNat - 48)) 0 = n := by
    rw [← hcc]
    exact hval
  rw [parseDigits, pyStrip_digits _ hdig, hcc, pyIntChunk,
    if_neg (isAsciiDigit_ne_plus c hc), if_neg (isAsciiDigit_ne_minus c hc)]
  simp only [pyIntDigits]
  rw [if_pos hcond]
  simp [hfold]

theorem rfindIdx_eq_none (c : Char) (l : List Char) (h : c ∉ l) :
    rfindIdx c l = none := by
  induction l with
  | nil => rfl
  | cons x xs ih =>
    have hx : x ≠ c := fun heq => h (heq ▸ List.mem_cons_self x xs)
    have hxs : c ∉ xs := fun hmem => h (List.mem_cons_of_mem x hmem)
    simp [rfindIdx, ih hxs, hx]

theorem rfindIdx_append_cons (c : Char) (l₁ l₂ : List Char) (h : c ∉ l₂) :
    rfindIdx c (l₁ ++ c :: l₂) = some l₁.length := by
  induction l₁ with
  | nil => simp [rfindIdx, rfindIdx_eq_none c l₂ h]
  | cons x xs ih => simp [rfindIdx, ih]

theorem splitOnChar_exists_cons (sep : Char) (l : List Char) :
    ∃ r rs, splitOnChar sep l = r :: rs := by
  cases l with
  | nil => exact ⟨[], [], rfl⟩
  | cons c cs =>
    rcases hcs : splitOnChar sep cs with _ | ⟨r, rs⟩
    · by_cases hc : c = sep <;> simp [splitOnChar, hcs, hc]
    · by_cases hc : c = sep <;> simp [splitOnChar, hcs, hc]

theorem splitOnChar_not_mem (sep : Char) (l : List Char) (h : sep ∉ l) :
    splitOnChar sep l = [l] := by
  induction l with
  | nil => rfl
  | cons c cs ih =>
    have hc : c ≠ sep := fun heq => h (heq ▸ List.mem_cons_self c cs)
    have hcs : sep ∉ cs := fun hmem => h (List.mem_cons_of_mem c hmem)
    simp [splitOnChar, ih hcs, hc]

theorem splitOnChar_append (sep : Char) (l₁ l₂ : List Char) (h : sep ∉ l₁) :
    splitOnChar sep (l₁ ++ sep :: l₂) = l₁ :: splitOnChar sep l₂ := by
  induction l₁ with
  | nil =>
    obtain ⟨r, rs, hr⟩ := splitOnChar_exists_cons sep l₂
    simp [splitOnChar, hr]
  | cons x xs ih =>
    have hx : x ≠ sep := fun heq => h (heq ▸ List.mem_cons_self x xs)
    have hxs : sep ∉ xs := fun hmem => h (List.mem_cons_of_mem x hmem)
    show (match splitOnChar sep (xs ++ sep :: l₂) with
      | [] => [[x]]
      | r :: rs => if x = sep then [] :: r :: rs else (x :: r) :: rs) =
      (x :: xs) :: splitOnChar sep l₂
    rw [ih hxs]
    simp [hx]

theorem stem_append_dot (pre suf : List Char) (hpre : pre ≠ [])
    (hsuf : suf ≠ []) (hdot : '.' ∉ suf) :
    stem (pre ++ '.' :: suf) = pre := by
  unfold stem
  rw [rfindIdx_append_cons '.' pre suf hdot]
  have hprelen : 0 < pre.length := List.length_pos.mpr hpre
  have hsuflen : 0 < suf.length := List.length_pos.mpr hsuf
  have hlen : (pre ++ '.' :: suf).length = pre.length + suf.length + 1 := by
    simp [List.length_append]
    omega
  show (if 0 < pre.length ∧ pre.length < (pre ++ '.' :: suf).length - 1 then
      List.take pre.length (pre ++ '.' :: suf) else pre ++ '.' :: suf) = pre
  rw [if_pos ⟨hprelen, by rw [hlen]; omega⟩]
  exact List.take_left pre ('.' :: suf)

theorem underscore_not_mem_pad (n : ℕ) : '_' ∉ padZeros 4 (natToDigitChars n) := by
  intro hmem
  have := mem_padZeros_isAsciiDigit 4 (natToDigitChars n)
    (mem_natToDigitChars_isAsciiDigit n) '_' hmem
  exact absurd this (by decide)

theorem dot_not_mem_pad (n : ℕ) : '.' ∉ padZeros 4 (natToDigitChars n) := by
  intro hmem
  have := mem_padZeros_isAsciiDigit 4 (natToDigitChars n)
    (mem_natToDigitChars_isAsciiDigit n) '.' hmem
  exact absurd this (by decide)

theorem formatZ4_ofNat (m : ℕ) : formatZ4 (m : ℤ) = padZeros 4 (natToDigitChars m) := by
  unfold formatZ4
  rw [if_neg (by omega : ¬ ((m : ℤ) < 0))]
  simp

/-- Parsing a canonical `CYQ_%04d.MP4` filename recovers its id. -/
theorem parseVideoId_cyqName (m : ℕ) :
    parseVideoId (cyqName (m : ℤ)) = some (m : ℤ) := by
  have hname : cyqName (m : ℤ) =
      (['C', 'Y', 'Q', '_'] ++ padZeros 4 (natToDigitChars m)) ++ '.' :: ['M', 'P', '4'] := by
    unfold cyqName
    rw [formatZ4_ofNat]
    simp
  rw [parseVideoId, hname]
  have hpre : (['C', 'Y', 'Q', '_'] ++ padZeros 4 (natToDigitChars m)) ≠ [] := by
    simp
  rw [stem_append_dot _ _ hpre (by simp) (by decide)]
  have hsplit : ['C', 'Y', 'Q', '_'] ++ padZeros 4 (natToDigitChars m) =
      ['C', 'Y', 'Q'] ++ '_' :: padZeros 4 (natToDigitChars m) := by simp
  rw [hsplit, splitOnChar_append '_' _ _ (by decide),
    splitOnChar_not_mem '_' _ (underscore_not_mem_pad m)]
  simp only [List.get?]
  show parseDigits (padZeros 4 (natToDigitChars m)) = some (m : ℤ)
  exact parseDigits_padZeros_natToDigitChars 4 m

/-- C7 counterexample: for the source filename `ABC_0005.MP4` (which ends in
a numeric component of the required shape) the code does not leave the
prefix unchanged: the predecessor identifier it probes is `CYQ_0004.MP4`,
not `ABC_0004.MP4` — the f-string hardcodes the `CYQ_` prefix, the 4-digit
width and the `.MP4` extension. -/
theorem c7_counterexample :
    prevVideoName ("ABC_0005.MP4".toList) = some ("CYQ_0004.MP4".toList) ∧
      "CYQ_0004.MP4".toList ≠ "ABC_0004.MP4".toList := by
  constructor
  · decide
  · decide

/-- C7 (amended): for source filenames of the code's expected canonical form
`CYQ_NNNN.MP4` (4-digit zero-padded sequential counter, here `1 ≤ n` and
`n + 1 ≤ 9999` so that neighbours stay four digits wide), the predecessor
and successor identifiers are obtained by decrementing/incrementing the
trailing numeric component with the same zero-padded width and unchanged
prefix and extension.  For any other prefix, digit width or extension the
code instead substitutes the fixed pattern `CYQ_%04d.MP4` (see the
counterexample). -/
theorem c7_neighbour_names (n : ℕ) (_h1 : 1 ≤ n) (_h2 : n + 1 ≤ 9999) :
    prevVideoName (cyqName (n : ℤ)) = some (cyqName ((n : ℤ) - 1)) ∧
      nextVideoName (cyqName (n : ℤ)) = some (cyqName ((n : ℤ) + 1)) := by
  rw [prevVideoName, nextVideoName, parseVideoId_cyqName n]
  exact ⟨rfl, rfl⟩

/-- Witness for C7 (amended) at `n = 5`: `CYQ_0005.MP4` has predecessor
`CYQ_0004.MP4` and successor `CYQ_0006.MP4`. -/
theorem c7_neighbour_names_witness :
    1 ≤ 5 ∧ 5 + 1 ≤ 9999 ∧
      (prevVideoName (cyqName ((5 : ℕ) : ℤ)) = some (cyqName (((5 : ℕ) : ℤ) - 1)) ∧
        nextVideoName (cyqName ((5 : ℕ) : ℤ)) = some (cyqName (((5 : ℕ) : ℤ) + 1))) :=
  ⟨by omega, by omega, c7_neighbour_names 5 (by omega) (by omega)⟩

theorem addIncident_primaryV (env : PlaceEnv) (videoFilename : List Char)
    (beepTimestamp contextBefore contextAfter : ℚ) (startFrame : ℤ) (fps : ℚ)
    (channel : ℤ) :
    (addIncidentToTimeline env videoFilename beepTimestamp contextBefore
        contextAfter startFrame fps channel).primaryV =
      (insertMovie env videoFilename
        ((pyTrunc ((startFrame : ℚ)
          + max 0 (contextBefore - beepTimestamp) * fps
          - max 0 (beepTimestamp - contextBefore) * fps) : ℤ))
        ((pyTrunc (max 0 (beepTimestamp - contextBefore) * fps) : ℤ))
        ((pyTrunc ((min contextBefore beepTimestamp + contextAfter) * fps) : ℤ))
        channel).1 := by
  rcases h : parseVideoId videoFilename with _ | vid <;>
    simp only [addIncidentToTimeline, h]

theorem addIncident_error_parse_some (env : PlaceEnv) (videoFilename : List Char)
    (beepTimestamp contextBefore contextAfter : ℚ) (startFrame : ℤ) (fps : ℚ)
    (channel videoId : ℤ) (h : parseVideoId videoFilename = some videoId) :
    (addIncidentToTimeline env videoFilename beepTimestamp contextBefore
      contextAfter startFrame fps channel).error = none := by
  simp only [addIncidentToTimeline, h]

/-- The primary strip's visible extent, under the hypothesis that timestamp
and context windows are whole numbers of frames (`t·fps`, `cb·fps`, `ca·fps`
integral): all truncations are exact and the extent is pure integer
arithmetic. -/
theorem primary_strip_int (env : PlaceEnv) (videoFilename : List Char)
    (t cb ca : ℚ) (m n k : ℤ) (fps : ℚ)
    (hm : t * fps = (m : ℚ)) (hn : cb * fps = (n : ℚ)) (hk : ca * fps = (k : ℚ))
    (hfps : 0 < fps) (startFrame channel : ℤ) :
    frameFinalStart (addIncidentToTimeline env videoFilename t cb ca startFrame
        fps channel).primaryV = ((startFrame + max 0 (n - m) : ℤ) : ℚ) ∧
    frameFinalEnd (addIncidentToTimeline env videoFilename t cb ca startFrame
        fps channel).primaryV =
      ((startFrame + max 0 (n - m)
        + min (min n m + k) (env.durOf videoFilename - max 0 (m - n)) : ℤ) : ℚ) := by
  have hcbt : max 0 (cb - t) * fps = ((max 0 (n - m) : ℤ) : ℚ) := by
    rw [max_mul_of_nonneg _ _ hfps.le, zero_mul, sub_mul, hn, hm]
    push_cast
    rfl
  have htcb : max 0 (t - cb) * fps = ((max 0 (m - n) : ℤ) : ℚ) := by
    rw [max_mul_of_nonneg _ _ hfps.le, zero_mul, sub_mul, hm, hn]
    push_cast
    rfl
  have hreq : (min cb t + ca) * fps = ((min n m + k : ℤ) : ℚ) := by
    rw [add_mul, min_mul_of_nonneg _ _ hfps.le, hn, hm, hk]
    push_cast
    rfl
  have hstart : (startFrame : ℚ) + max 0 (cb - t) * fps - max 0 (t - cb) * fps =
      ((startFrame + max 0 (n - m) - max 0 (m - n) : ℤ) : ℚ) := by
    rw [hcbt, htcb]
    push_cast
    ring
  rw [addIncident_primaryV]
  simp only [insertMovie, frameFinalStart, frameFinalEnd]
  rw [hstart, htcb, hreq, pyTrunc_intCast, pyTrunc_intCast, pyTrunc_intCast]
  constructor
  · push_cast
    ring
  · push_cast
    ring_nf

theorem insertMovie_dur (env : PlaceEnv) (videoFilename : List Char)
    (frameStart frameOffsetStart frameFinalDuration : ℚ) (channel : ℤ) :
    (insertMovie env videoFilename frameStart frameOffsetStart
      frameFinalDuration channel).2.2 = ((env.durOf videoFilename : ℤ) : ℚ) := rfl

theorem addIncident_succClip_pos (env : PlaceEnv) (videoFilename : List Char)
    (beepTimestamp contextBefore contextAfter : ℚ) (startFrame : ℤ) (fps : ℚ)
    (channel videoId : ℤ) (hparse : parseVideoId videoFilename = some videoId)
    (htrig : beepTimestamp * fps >
      ((env.durOf videoFilename : ℤ) : ℚ) - contextAfter * fps)
    (hex : env.fileExists (cyqName (videoId + 1)) = true) :
    (addIncidentToTimeline env videoFilename beepTimestamp contextBefore
        contextAfter startFrame fps channel).succClip =
      some ((insertMovie env (cyqName (videoId + 1))
          ((pyTrunc ((startFrame : ℚ) + contextBefore * fps + contextAfter * fps
            - ((pyTrunc (contextAfter * fps
              - (((env.durOf videoFilename : ℤ) : ℚ) - beepTimestamp * fps)) : ℤ) : ℚ)) : ℤ))
          0
          ((pyTrunc (contextAfter * fps
            - (((env.durOf videoFilename : ℤ) : ℚ) - beepTimestamp * fps)) : ℤ))
          channel).1,
        (insertMovie env (cyqName (videoId + 1))
          ((pyTrunc ((startFrame : ℚ) + contextBefore * fps + contextAfter * fps
            - ((pyTrunc (contextAfter * fps
              - (((env.durOf videoFilename : ℤ) : ℚ) - beepTimestamp * fps)) : ℤ) : ℚ)) : ℤ))
          0
          ((pyTrunc (contextAfter * fps
            - (((env.durOf videoFilename : ℤ) : ℚ) - beepTimestamp * fps)) : ℤ))
          channel).2.1) := by
  simp only [addIncidentToTimeline, hparse, insertMovie_dur]
  rw [if_pos htrig, if_pos hex]

/-- C5 (amended): when `timestamp * fps` exceeds the native duration minus
`context_after * fps` and the following sequential file exists, a successor
splice is emitted with source-in-offset 0 whose timeline start equals
exactly the visible end of the (duration-clamped) primary placement, and
whose duration is the missing trailing frames clamped to the successor
file's own native duration — exactly the missing frames whenever the
successor file is long enough.  The timestamp and the context windows are
assumed to be whole numbers of frames (`t·fps`, `cb·fps`, `ca·fps` ∈ ℤ);
with fractional-frame values the `int(...)` truncations can shift the
successor start by one frame. -/
theorem c5_successor_splice (env : PlaceEnv) (videoFilename : List Char)
    (videoId : ℤ) (beepTimestamp contextBefore contextAfter fps : ℚ)
    (m n k : ℤ) (hm : beepTimestamp * fps = (m : ℚ))
    (hn : contextBefore * fps = (n : ℚ)) (hk : contextAfter * fps = (k : ℚ))
    (hfps : 0 < fps) (startFrame channel : ℤ)
    (hparse : parseVideoId videoFilename = some videoId)
    (htrig : beepTimestamp * fps >
      ((env.durOf videoFilename : ℤ) : ℚ) - contextAfter * fps)
    (hex : env.fileExists (cyqName (videoId + 1)) = true) :
    let p := addIncidentToTimeline env videoFilename beepTimestamp
      contextBefore contextAfter startFrame fps channel
    (p.succClip.map fun sc => sc.1.frameOffsetStart) = some 0 ∧
      (p.succClip.map fun sc => frameFinalStart sc.1) =
        some (frameFinalEnd p.primaryV) ∧
      (p.succClip.map fun sc => sc.1.frameFinalDuration) =
        some (min ((m + k - env.durOf videoFilename : ℤ) : ℚ)
          ((env.durOf (cyqName (videoId + 1)) : ℤ) : ℚ)) := by
  have hD : ((env.durOf videoFilename : ℤ) : ℚ) < (m : ℚ) + (k : ℚ) := by
    have := htrig
    rw [hm, hk] at this
    linarith
  have hDZ : env.durOf videoFilename < m + k := by exact_mod_cast hD
  have hfrc : contextAfter * fps
      - (((env.durOf videoFilename : ℤ) : ℚ) - beepTimestamp * fps) =
      ((m + k - env.durOf videoFilename : ℤ) : ℚ) := by
    rw [hk, hm]
    push_cast
    ring
  have hfrcT : (pyTrunc (contextAfter * fps
      - (((env.durOf videoFilename : ℤ) : ℚ) - beepTimestamp * fps)) : ℤ) =
      m + k - env.durOf videoFilename := by
    rw [hfrc, pyTrunc_intCast]
  have hstart2 : (startFrame : ℚ) + contextBefore * fps + contextAfter * fps
      - ((m + k - env.durOf videoFilename : ℤ) : ℚ) =
      ((startFrame + n - m + env.durOf videoFilename : ℤ) : ℚ) := by
    rw [hn, hk]
    push_cast
    ring
  have hprim := primary_strip_int env videoFilename beepTimestamp contextBefore
    contextAfter m n k fps hm hn hk hfps startFrame channel
  have hprimE : frameFinalEnd (addIncidentToTimeline env videoFilename
      beepTimestamp contextBefore contextAfter startFrame fps
      channel).primaryV =
      ((startFrame + n - m + env.durOf videoFilename : ℤ) : ℚ) := by
    rw [hprim.2]
    congr 1
    rcases le_total m n with hmn | hnm
    · rw [max_eq_right (by omega : (0:ℤ) ≤ n - m),
        max_eq_left (by omega : m - n ≤ (0:ℤ)),
        min_eq_right (by omega : m ≤ n),
        min_eq_right (by omega : env.durOf videoFilename - 0 ≤ m + k)]
      omega
    · rw [max_eq_left (by omega : n - m ≤ (0:ℤ)),
        max_eq_right (by omega : (0:ℤ) ≤ m - n),
        min_eq_left (by omega : n ≤ m),
        min_eq_right (by omega : env.durOf videoFilename - (m - n) ≤ n + k)]
      omega
  have hsucc := addIncident_succClip_pos env videoFilename beepTimestamp
    contextBefore contextAfter startFrame fps channel videoId hparse htrig hex
  refine ⟨?_, ?_, ?_⟩
  · rw [hsucc]
    rfl
  · rw [hsucc, hprimE]
    simp only [insertMovie, Option.map_some', frameFinalStart]
    rw [hfrcT, hstart2, pyTrunc_intCast]
    norm_num
  · rw [hsucc]
    simp only [insertMovie, Option.map_some']
    rw [hfrcT]
    norm_num

/-- C5 counterexample: incident at `timestamp = 20` s in `CYQ_0002.MP4`
(600 frames long, `fps = 30`, `cb = 14`, `ca = 5`): the trigger holds
(`600 > 600 - 150`) and the successor `CYQ_0003.MP4` exists but is only 40
frames long.  The claim says the successor clip's duration is exactly the
missing trailing frames (150); the correction pass in `insert_movie` clamps
it to 40. -/
theorem c5_counterexample :
    let p := addIncidentToTimeline
      ⟨fun f => if f == "CYQ_0003.MP4".toList then 40 else 600,
        fun f => f == "CYQ_0003.MP4".toList⟩
      ("CYQ_0002.MP4".toList) 20 14 5 0 30 1
    (p.succClip.map fun sc => sc.1.frameFinalDuration) = some 40 ∧
      (40 : ℚ) ≠ 150 := by
  have hparse : parseVideoId ("CYQ_0002.MP4".toList) = some 2 := by decide
  have hfz : formatZ4 3 = ['0', '0', '0', '3'] := by decide
  have hcur : ("CYQ_0002.MP4".toList == "CYQ_0003.MP4".toList) = false := by decide
  have h23 : ¬ (('2' : Char) = '3') := by decide
  simp only [addIncidentToTimeline, insertMovie, hparse]
  norm_num [pyTrunc, cyqName, hfz, hcur, h23]

/-- Witness for C5 (amended): incident at `timestamp = 20` s in
`CYQ_0002.MP4` of 600 frames, every file 600 frames long and present. -/
theorem c5_successor_splice_witness :
    (20 : ℚ) * 30 = ((600 : ℤ) : ℚ) ∧ (14 : ℚ) * 30 = ((420 : ℤ) : ℚ) ∧
      (5 : ℚ) * 30 = ((150 : ℤ) : ℚ) ∧ (0 : ℚ) < 30 ∧
      parseVideoId ("CYQ_0002.MP4".toList) = some 2 ∧
      ((20 : ℚ) * 30 >
        (((PlaceEnv.mk (fun _ => 600) (fun _ => true)).durOf
          ("CYQ_0002.MP4".toList) : ℤ) : ℚ) - (5 : ℚ) * 30) ∧
      (PlaceEnv.mk (fun _ => 600) (fun _ => true)).fileExists (cyqName (2 + 1)) = true ∧
      (let p := addIncidentToTimeline ⟨fun _ => 600, fun _ => true⟩
        ("CYQ_0002.MP4".toList) 20 14 5 0 30 1
       (p.succClip.map fun sc => sc.1.frameOffsetStart) = some 0 ∧
        (p.succClip.map fun sc => frameFinalStart sc.1) =
          some (frameFinalEnd p.primaryV) ∧
        (p.succClip.map fun sc => sc.1.frameFinalDuration) =
          some (min ((600 + 150 - (PlaceEnv.mk (fun _ => 600) (fun _ => true)).durOf
              ("CYQ_0002.MP4".toList) : ℤ) : ℚ)
            (((PlaceEnv.mk (fun _ => 600) (fun _ => true)).durOf (cyqName (2 + 1)) : ℤ) : ℚ))) :=
  ⟨by norm_num, by norm_num, by norm_num, by norm_num, by decide,
    by norm_num, rfl,
    c5_successor_splice ⟨fun _ => 600, fun _ => true⟩ ("CYQ_0002.MP4".toList) 2
      20 14 5 30 600 420 150 (by norm_num) (by norm_num) (by norm_num)
      (by norm_num) 0 1 (by decide) (by norm_num) rfl⟩

theorem runPlacementAux_cons_none (env : PlaceEnv) (contextBefore contextAfter fps : ℚ)
    (iIncident : ℕ) (videoFilename : List Char) (beepTimestamp : ℚ)
    (rest : List (List Char × ℚ))
    (h : (addIncidentToTimeline env videoFilename beepTimestamp contextBefore
      contextAfter (pyTrunc ((iIncident : ℚ) * (contextBefore + contextAfter) * fps))
      fps (1 + ((iIncident : ℤ) % 2) * 2)).error = none) :
    runPlacementAux env contextBefore contextAfter fps iIncident
        ((videoFilename, beepTimestamp) :: rest) =
      addIncidentToTimeline env videoFilename beepTimestamp contextBefore
          contextAfter (pyTrunc ((iIncident : ℚ) * (contextBefore + contextAfter) * fps))
          fps (1 + ((iIncident : ℤ) % 2) * 2) ::
        runPlacementAux env contextBefore contextAfter fps (iIncident + 1) rest := by
  rw [runPlacementAux, h]

theorem runPlacementAux_singleton (env : PlaceEnv) (contextBefore contextAfter fps : ℚ)
    (iIncident : ℕ) (videoFilename : List Char) (beepTimestamp : ℚ) :
    runPlacementAux env contextBefore contextAfter fps iIncident
        [(videoFilename, beepTimestamp)] =
      [addIncidentToTimeline env videoFilename beepTimestamp contextBefore
        contextAfter (pyTrunc ((iIncident : ℚ) * (contextBefore + contextAfter) * fps))
        fps (1 + ((iIncident : ℤ) % 2) * 2)] := by
  rw [runPlacementAux]
  rcases herr : (addIncidentToTimeline env videoFilename beepTimestamp contextBefore
      contextAfter (pyTrunc ((iIncident : ℚ) * (contextBefore + contextAfter) * fps))
      fps (1 + ((iIncident : ℤ) % 2) * 2)).error with _ | e
  · rfl
  · rfl

theorem slot_end_bound (m durFrames slotStart : ℤ) :
    slotStart + max 0 (420 - m)
      + min (min 420 m + 150) (durFrames - max 0 (m - 420)) ≤ slotStart + 570 := by
  rcases le_total m 420 with h | h
  · have h1 : max 0 (420 - m) = 420 - m := max_eq_right (by omega)
    have h2 : min 420 m = m := min_eq_right h
    have h3 := min_le_left (m + 150) (durFrames - max 0 (m - 420))
    rw [h1, h2]
    omega
  · have h1 : max 0 (420 - m) = 0 := max_eq_left (by omega)
    have h2 : min 420 m = 420 := min_eq_left h
    have h3 := min_le_left (420 + 150) (durFrames - max 0 (m - 420))
    rw [h1, h2]
    omega

/-- C3 (amended): in a two-incident run with `context_before = 14`,
`context_after = 5`, `fps = 30`, the incidents are assigned slot start
frames `0` and `570` (slot width `(14+5)*30 = 570`); whenever the
timestamps are whole numbers of frames (`t·30 ∈ ℤ`), each primary's visible
range lies inside its own slot (`[0, 570)` resp. `[570, 1140)`), so the two
ranges never overlap, and the visible starts are exactly `0` and `570`
whenever additionally `tᵢ ≥ 14` (full lead-in available).  With
fractional-frame timestamps the truncation `int(start_frame - offset)` can
pull a primary's visible start one frame before its slot and onto the
previous primary (see the counterexample). -/
theorem c3_two_incident_slots (env : PlaceEnv) (f₁ f₂ : List Char) (t₁ t₂ : ℚ)
    (m₁ m₂ : ℤ) (h₁ : t₁ * 30 = (m₁ : ℚ)) (h₂ : t₂ * 30 = (m₂ : ℚ))
    (hvid : (parseVideoId f₁).isSome = true) :
    let ps := runPlacement env [(f₁, t₁), (f₂, t₂)] 14 5 30
    ps.length = 2 ∧
      (0 : ℚ) ≤ frameFinalStart (ps.getD 0 default).primaryV ∧
      frameFinalEnd (ps.getD 0 default).primaryV ≤ 570 ∧
      (570 : ℚ) ≤ frameFinalStart (ps.getD 1 default).primaryV ∧
      frameFinalEnd (ps.getD 1 default).primaryV ≤ 1140 ∧
      ((14 : ℚ) ≤ t₁ → frameFinalStart (ps.getD 0 default).primaryV = 0) ∧
      ((14 : ℚ) ≤ t₂ → frameFinalStart (ps.getD 1 default).primaryV = 570) := by
  obtain ⟨vid, hvid'⟩ := Option.isSome_iff_exists.mp hvid
  have harg0 : pyTrunc (((0 : ℕ) : ℚ) * (14 + 5) * 30) = 0 := by
    norm_num [pyTrunc]
  have harg1 : pyTrunc (((0 + 1 : ℕ) : ℚ) * (14 + 5) * 30) = 570 := by
    have : (((0 + 1 : ℕ) : ℚ)) * (14 + 5) * 30 = ((570 : ℤ) : ℚ) := by norm_num
    rw [this, pyTrunc_intCast]
  have hch0 : 1 + (((0 : ℕ) : ℤ) % 2) * 2 = 1 := by decide
  have hch1 : 1 + (((0 + 1 : ℕ) : ℤ) % 2) * 2 = 3 := by decide
  have he1 : (addIncidentToTimeline env f₁ t₁ 14 5
      (pyTrunc (((0 : ℕ) : ℚ) * (14 + 5) * 30)) 30
      (1 + (((0 : ℕ) : ℤ) % 2) * 2)).error = none :=
    addIncident_error_parse_some env f₁ t₁ 14 5 _ 30 _ vid hvid'
  have hps : runPlacement env [(f₁, t₁), (f₂, t₂)] 14 5 30 =
      [addIncidentToTimeline env f₁ t₁ 14 5 0 30 1,
        addIncidentToTimeline env f₂ t₂ 14 5 570 30 3] := by
    rw [runPlacement, runPlacementAux_cons_none env 14 5 30 0 f₁ t₁ _ he1,
      runPlacementAux_singleton]
    rw [harg0, harg1, hch0, hch1]
  have hn420 : (14 : ℚ) * 30 = ((420 : ℤ) : ℚ) := by norm_num
  have hk150 : (5 : ℚ) * 30 = ((150 : ℤ) : ℚ) := by norm_num
  have hfps : (0 : ℚ) < 30 := by norm_num
  have hp1 := primary_strip_int env f₁ t₁ 14 5 m₁ 420 150 30 h₁ hn420 hk150 hfps 0 1
  have hp2 := primary_strip_int env f₂ t₂ 14 5 m₂ 420 150 30 h₂ hn420 hk150 hfps 570 3
  refine ⟨?_, ?_, ?_, ?_, ?_, ?_, ?_⟩
  · rw [hps]
    rfl
  · rw [hps]
    show (0 : ℚ) ≤ frameFinalStart (addIncidentToTimeline env f₁ t₁ 14 5 0 30 1).primaryV
    rw [hp1.1]
    have : (0 : ℤ) ≤ 0 + max 0 (420 - m₁) := by
      have := le_max_left 0 (420 - m₁)
      omega
    exact_mod_cast this
  · rw [hps]
    show frameFinalEnd (addIncidentToTimeline env f₁ t₁ 14 5 0 30 1).primaryV ≤ 570
    rw [hp1.2]
    have := slot_end_bound m₁ (env.durOf f₁) 0
    have hcast : ((0 + max 0 (420 - m₁)
        + min (min 420 m₁ + 150) (env.durOf f₁ - max 0 (m₁ - 420)) : ℤ) : ℚ) ≤
        ((0 + 570 : ℤ) : ℚ) := by exact_mod_cast this
    calc ((0 + max 0 (420 - m₁)
        + min (min 420 m₁ + 150) (env.durOf f₁ - max 0 (m₁ - 420)) : ℤ) : ℚ)
        ≤ ((0 + 570 : ℤ) : ℚ) := hcast
      _ = 570 := by norm_num
  · rw [hps]
    show (570 : ℚ) ≤ frameFinalStart (addIncidentToTimeline env f₂ t₂ 14 5 570 30 3).primaryV
    rw [hp2.1]
    have : (570 : ℤ) ≤ 570 + max 0 (420 - m₂) := by
      have := le_max_left 0 (420 - m₂)
      omega
    exact_mod_cast this
  · rw [hps]
    show frameFinalEnd (addIncidentToTimeline env f₂ t₂ 14 5 570 30 3).primaryV ≤ 1140
    rw [hp2.2]
    have := slot_end_bound m₂ (env.durOf f₂) 570
    have hcast : ((570 + max 0 (420 - m₂)
        + min (min 420 m₂ + 150) (env.durOf f₂ - max 0 (m₂ - 420)) : ℤ) : ℚ) ≤
        ((570 + 570 : ℤ) : ℚ) := by exact_mod_cast this
    calc ((570 + max 0 (420 - m₂)
        + min (min 420 m₂ + 150) (env.durOf f₂ - max 0 (m₂ - 420)) : ℤ) : ℚ)
        ≤ ((570 + 570 : ℤ) : ℚ) := hcast
      _ = 1140 := by norm_num
  · rw [hps]
    intro ht
    show frameFinalStart (addIncidentToTimeline env f₁ t₁ 14 5 0 30 1).primaryV = 0
    rw [hp1.1]
    have hm420 : (420 : ℤ) ≤ m₁ := by
      have : (420 : ℚ) ≤ (m₁ : ℚ) := by
        rw [← h₁]
        linarith
      exact_mod_cast this
    rw [max_eq_left (by omega : 420 - m₁ ≤ (0 : ℤ))]
    norm_num
  · rw [hps]
    intro ht
    show frameFinalStart (addIncidentToTimeline env f₂ t₂ 14 5 570 30 3).primaryV = 570
    rw [hp2.1]
    have hm420 : (420 : ℤ) ≤ m₂ := by
      have : (420 : ℚ) ≤ (m₂ : ℚ) := by
        rw [← h₂]
        linarith
      exact_mod_cast this
    rw [max_eq_left (by omega : 420 - m₂ ≤ (0 : ℤ))]
    norm_num

/-- C3 counterexample: two incidents in `CYQ_0001.MP4` (18000 frames) at
timestamps `20` s and `841/60` s (≈ 14.0167 s, i.e. half a frame past a
frame boundary at 30 fps).  The first primary occupies `[0, 570)`, but the
second primary's visible start is `int(570 - 0.5) + int(0.5) = 569`, not
570: the two primary frame ranges overlap at frame 569. -/
theorem c3_counterexample :
    let ps := runPlacement ⟨fun _ => 18000, fun _ => false⟩
      [("CYQ_0001.MP4".toList, 20), ("CYQ_0001.MP4".toList, 841/60)] 14 5 30
    frameFinalStart (ps.getD 0 default).primaryV = 0 ∧
      frameFinalEnd (ps.getD 0 default).primaryV = 570 ∧
      frameFinalStart (ps.getD 1 default).primaryV = 569 ∧
      frameFinalEnd (ps.getD 1 default).primaryV = 1139 ∧
      frameFinalStart (ps.getD 1 default).primaryV <
        frameFinalEnd (ps.getD 0 default).primaryV := by
  have hparse : parseVideoId ("CYQ_0001.MP4".toList) = some 1 := by decide
  have harg0 : pyTrunc (((0 : ℕ) : ℚ) * (14 + 5) * 30) = 0 := by
    norm_num [pyTrunc]
  have harg1 : pyTrunc (((0 + 1 : ℕ) : ℚ) * (14 + 5) * 30) = 570 := by
    have : (((0 + 1 : ℕ) : ℚ)) * (14 + 5) * 30 = ((570 : ℤ) : ℚ) := by norm_num
    rw [this, pyTrunc_intCast]
  have hch0 : 1 + (((0 : ℕ) : ℤ) % 2) * 2 = 1 := by decide
  have hch1 : 1 + (((0 + 1 : ℕ) : ℤ) % 2) * 2 = 3 := by decide
  have he1 : (addIncidentToTimeline ⟨fun _ => 18000, fun _ => false⟩
      ("CYQ_0001.MP4".toList) 20 14 5
      (pyTrunc (((0 : ℕ) : ℚ) * (14 + 5) * 30)) 30
      (1 + (((0 : ℕ) : ℤ) % 2) * 2)).error = none :=
    addIncident_error_parse_some _ _ _ _ _ _ _ _ 1 hparse
  have hps : runPlacement ⟨fun _ => 18000, fun _ => false⟩
      [("CYQ_0001.MP4".toList, 20), ("CYQ_0001.MP4".toList, 841/60)] 14 5 30 =
      [addIncidentToTimeline ⟨fun _ => 18000, fun _ => false⟩
        ("CYQ_0001.MP4".toList) 20 14 5 0 30 1,
        addIncidentToTimeline ⟨fun _ => 18000, fun _ => false⟩
          ("CYQ_0001.MP4".toList) (841/60) 14 5 570 30 3] := by
    rw [runPlacement, runPlacementAux_cons_none _ _ _ _ _ _ _ _ he1,
      runPlacementAux_singleton]
    rw [harg0, harg1, hch0, hch1]
  have hceil : ⌈(-180 : ℚ)⌉ = -180 := by
    rw [show ((-180 : ℚ)) = (((-180 : ℤ)) : ℚ) by norm_num, Int.ceil_intCast]
  refine ⟨?_, ?_, ?_, ?_, ?_⟩ <;> rw [hps] <;>
    · simp only [List.getD_cons_zero, List.getD_cons_succ, addIncident_primaryV,
        insertMovie]
      norm_num [pyTrunc, frameFinalStart, frameFinalEnd, hceil]

/-- Witness for C3 (amended) with both incidents at `timestamp = 20` s in
`CYQ_0001.MP4`. -/
theorem c3_two_incident_slots_witness :
    (20 : ℚ) * 30 = ((600 : ℤ) : ℚ) ∧
      (parseVideoId ("CYQ_0001.MP4".toList)).isSome = true ∧
      (let ps := runPlacement ⟨fun _ => 18000, fun _ => false⟩
        [("CYQ_0001.MP4".toList, 20), ("CYQ_0001.MP4".toList, 20)] 14 5 30
      ps.length = 2 ∧
        (0 : ℚ) ≤ frameFinalStart (ps.getD 0 default).primaryV ∧
        frameFinalEnd (ps.getD 0 default).primaryV ≤ 570 ∧
        (570 : ℚ) ≤ frameFinalStart (ps.getD 1 default).primaryV ∧
        frameFinalEnd (ps.getD 1 default).primaryV ≤ 1140 ∧
        ((14 : ℚ) ≤ 20 → frameFinalStart (ps.getD 0 default).primaryV = 0) ∧
        ((14 : ℚ) ≤ 20 → frameFinalStart (ps.getD 1 default).primaryV = 570)) :=
  ⟨by norm_num, by decide,
    c3_two_incident_slots ⟨fun _ => 18000, fun _ => false⟩
      ("CYQ_0001.MP4".toList) ("CYQ_0001.MP4".toList) 20 20 600 600
      (by norm_num) (by norm_num) (by decide)⟩

theorem sosfiltSection_length (s : Sos) (z1 z2 : ℚ) (xs : List ℚ) :
    (sosfiltSection s z1 z2 xs).length = xs.length := by
  induction xs generalizing z1 z2 with
  | nil => rfl
  | cons x rest ih => simp [sosfiltSection, ih]

theorem sosfilt_length (sos : List Sos) (xs : List ℚ) :
    (sosfilt sos xs).length = xs.length := by
  rw [sosfilt]
  induction sos generalizing xs with
  | nil => rfl
  | cons s rest ih =>
    rw [List.foldl_cons, ih, sosfiltSection_length]

theorem localMaxima_short (xs : List ℚ) (h : xs.length ≤ 2) :
    localMaxima xs = [] := by
  match xs with
  | [] => rfl
  | [a] => rfl
  | [a, b] =>
    show lmAux 2 1 a [b] = []
    by_cases hab : a < b <;> simp [lmAux, plateau, hab]
  | a :: b :: c :: rest => simp at h

theorem processTrace_short (sos : List Sos) (minHeight : ℚ)
    (exTimes exVolume : List ℚ) (h : exVolume.length ≤ 2) :
    processTrace sos minHeight exTimes exVolume = Except.ok [] := by
  have hlm : localMaxima (sosfilt sos exVolume) = [] :=
    localMaxima_short _ (by rw [sosfilt_length]; exact h)
  rw [processTrace]
  rw [hlm]
  rfl

/-- C9 counterexample: a one-sample energy trace — shorter than any sensible
minimum for an order-4 band-pass cascade — does not make pulse detection
fail: it returns normally with an empty pulse list (the section
coefficients are irrelevant to the error behaviour; the identity cascade is
used here).  No `InsufficientDataError` exists in the code. -/
theorem c9_counterexample :
    processTrace [⟨1, 0, 0, 1, 0, 0⟩, ⟨1, 0, 0, 1, 0, 0⟩,
        ⟨1, 0, 0, 1, 0, 0⟩, ⟨1, 0, 0, 1, 0, 0⟩] 200 [0] [5] =
      Except.ok [] ∧
      processTrace [⟨1, 0, 0, 1, 0, 0⟩, ⟨1, 0, 0, 1, 0, 0⟩,
        ⟨1, 0, 0, 1, 0, 0⟩, ⟨1, 0, 0, 1, 0, 0⟩] 200 [0] [5] ≠
      Except.error DetectError.insufficientData := by
  have h := processTrace_short [⟨1, 0, 0, 1, 0, 0⟩, ⟨1, 0, 0, 1, 0, 0⟩,
    ⟨1, 0, 0, 1, 0, 0⟩, ⟨1, 0, 0, 1, 0, 0⟩] 200 [0] [5] (by norm_num)
  exact ⟨h, by rw [h]; exact fun hc => Except.noConfusion hc⟩

/-- C9 (amended): the pulse-detection stage never fails — for every section
cascade, threshold and trace it returns `Except.ok`; in particular a trace
of at most two samples (shorter than any window in which a local maximum
could exist) succeeds with an empty pulse list rather than raising
`InsufficientDataError`. -/
theorem c9_detection_never_fails (sos : List Sos) (minHeight : ℚ)
    (exTimes exVolume : List ℚ) :
    (processTrace sos minHeight exTimes exVolume).isOk = true ∧
      (exVolume.length ≤ 2 →
        processTrace sos minHeight exTimes exVolume = Except.ok []) :=
  ⟨rfl, processTrace_short sos minHeight exTimes exVolume⟩

/-- Witness for C9 (amended) at a concrete two-sample trace. -/
theorem c9_detection_never_fails_witness :
    ([5, 6] : List ℚ).length ≤ 2 ∧
      (processTrace [⟨1, 0, 0, 1, 0, 0⟩] 200 [0, 1] [5, 6]).isOk = true ∧
      processTrace [⟨1, 0, 0, 1, 0, 0⟩] 200 [0, 1] [5, 6] = Except.ok [] :=
  ⟨by norm_num, (c9_detection_never_fails [⟨1, 0, 0, 1, 0, 0⟩] 200 [0, 1] [5, 6]).1,
    (c9_detection_never_fails [⟨1, 0, 0, 1, 0, 0⟩] 200 [0, 1] [5, 6]).2 (by norm_num)⟩

end Cycliq
